import Mathlib

/-!
Verification of the data-cleaning and view-building core of the
Brine/Water-Quality data visualiser (`DataVisualisationSh.py`) against its
natural-language specification.  The pandas pipeline is shallowly embedded
over lists: a DataFrame cell is a `Cell`, a raw sheet is a `RawTable`, the
output of `clean_data` is a `CleanTable`, and operations that pandas can abort
with an exception return `Except String`.  Floats are modelled as rationals.
-/

set_option linter.unusedVariables false

namespace DataVis

/-- Value of one spreadsheet cell as pandas holds it after reading the file:
a number, a text string, or a missing value (NaN). -/
inductive Cell where
  | num (q : ℚ)
  | str (s : String)
  | empty
deriving DecidableEq, Repr

/-- Raw table as loaded: `header` is the first file row (the column labels;
its head entry heads the parameter column and is ignored by the cleaner),
`body` holds the remaining rows, each beginning with the parameter cell. -/
structure RawTable where
  header : List String
  body : List (List Cell)
deriving DecidableEq, Repr

/-- Cleaned table: `labels` is the column-label list headed by the literal
label `Parameter`; each `grid` row carries the parameter cell at its head and
the value cells after it, aligned with `labels`. -/
structure CleanTable where
  labels : List String
  grid : List (List Cell)
deriving DecidableEq, Repr

/-- Python `str.strip`: drop leading and trailing whitespace characters.
Written over the character list so that the kernel can compute with it. -/
def stripChars (cs : List Char) : List Char :=
  ((cs.dropWhile Char.isWhitespace).reverse.dropWhile Char.isWhitespace).reverse

/-- The censored-value test of line 69 of the source:
`x.strip().startswith('<')`. -/
def censored (s : String) : Bool :=
  match stripChars s.data with
  | c :: _ => c == '<'
  | [] => false

/-- Per-cell effect of lines 69 and 72 of `clean_data`: the `applymap` turns a
string that starts with `<` after stripping surrounding whitespace into the
number 0, the `fillna` turns a missing value into 0, and every other cell is
untouched. -/
def scalarizeCell : Cell → Cell
  | .str s => if censored s then .num 0 else .str s
  | .empty => .num 0
  | .num q => .num q

/-- The scalarization pass of `clean_data`: lines 69 and 72 applied to the
whole frame, the parameter column included. -/
def scalarizeGrid (body : List (List Cell)) : List (List Cell) :=
  body.map (fun r => r.map scalarizeCell)

/-- Head cell of a grid row: the row's parameter cell. -/
def rowParam (r : List Cell) : Cell := r.headD .empty

/-- Rows of the grid whose parameter cell equals `p` (the selection
`cleaned_df[cleaned_df['Parameter'] == param]`). -/
def paramGroup (g : List (List Cell)) (p : Cell) : List (List Cell) :=
  g.filter (fun r => rowParam r == p)

/-- Does the list hold a repeated entry (pandas `duplicated().any()`). -/
def hasDup [BEq α] : List α → Bool
  | [] => false
  | a :: t => t.contains a || hasDup t

/-- Helper for `dupEntries`: `prev` holds the entries already passed. -/
def dupEntriesAux [BEq α] (prev : List α) : List α → List α
  | [] => []
  | a :: t =>
    if prev.contains a then a :: dupEntriesAux (a :: prev) t
    else dupEntriesAux (a :: prev) t

/-- Entries sitting at a non-first occurrence, in list order (the pandas
selection `s[s.duplicated()]`). -/
def dupEntries [BEq α] (l : List α) : List α := dupEntriesAux [] l

/-- First-occurrence deduplication (pandas `unique`). -/
def firstOcc [BEq α] : List α → List α
  | [] => []
  | a :: t => a :: (firstOcc t).filter (fun b => !(b == a))

/-- Labels occurring more than once, each listed once, in the order the pandas
idiom `s[s.duplicated()].unique()` produces them. -/
def dupLabels [BEq α] (l : List α) : List α := firstOcc (dupEntries l)

/-- Arithmetic mean of a list of rationals, the exact-arithmetic stand-in for
the float mean pandas computes. -/
def qmean (l : List ℚ) : ℚ := l.sum / (l.length : ℚ)

/-- Numeric reading of a cell; on the all-numeric groups reached below this is
the number pandas aggregates with. -/
def cellQ : Cell → ℚ
  | .num q => q
  | _ => 0

/-- Is the cell a number. -/
def isNum : Cell → Bool
  | .num _ => true
  | _ => false

/-- Mean of a list of cells, failing the way a pandas `mean` over an `object`
column fails when the column still holds non-numeric strings.  Missing values
cannot reach the call sites below: `fillna` has already zeroed them. -/
def cellsMean (l : List Cell) : Except String ℚ :=
  if l.all isNum then .ok (qmean (l.map cellQ)) else
    .error "could not convert cells to numeric"

/-- Match of one pattern character against one subject character under Python
`re` semantics: `.` matches anything but a newline; every other character
appearing in the date labels treated here is an ordinary character.  Labels
carrying further regex metacharacters lie outside the fragment modelled. -/
def pyCharMatch (p c : Char) : Bool := (p == '.' && c != '\n') || p == c

/-- Model of Python `re.search` for the anchored pattern built at line 88 of
the source (`^label$`), over the metacharacter fragment just described. -/
def pyAnchoredMatch (pat s : String) : Bool :=
  pat.length == s.length && (pat.toList.zip s.toList).all (fun pc => pyCharMatch pc.1 pc.2)

/-- Helper for the duplicate-parameter loop: the first row whose head cell
equals `p` gets `means` as its new tail, the later rows with that head are
removed (pandas drops them by their still-stable index labels, which is the
same thing), and every other row stays in place. -/
def writeFirstDropRest (p : Cell) (means : List Cell) : List (List Cell) → List (List Cell)
  | [] => []
  | r :: t =>
    if rowParam r == p then
      (rowParam r :: means) :: t.filter (fun r2 => !(rowParam r2 == p))
    else
      r :: writeFirstDropRest p means t

/-- One pass of the duplicate-date loop body (lines 88 to 90) for the label
`d`.  `matchedLabels` is `cleaned_df.filter(regex=...).columns`; selecting the
frame by that label list repeats every duplicated label, so the row mean runs
over `selIdx` with multiplicity; the mean is then assigned to every column
labelled exactly `d`, and finally the columns whose matched label differs from
`d` are dropped — for exact duplicates that drop list is empty. -/
def collapseDateOne (st : List String × List (List Cell)) (d : String) :
    Except String (List String × List (List Cell)) := do
  let labels := st.1
  let grid := st.2
  let matchedLabels := labels.filter (fun l => pyAnchoredMatch d l)
  let selIdx := matchedLabels.flatMap
    (fun l => (labels.enum.filter (fun p => p.2 == l)).map Prod.fst)
  let means ← grid.mapM (fun row => cellsMean (selIdx.map (fun j => row.getD j .empty)))
  let grid2 := (grid.zip means).map (fun rm =>
    rm.1.enum.map (fun jc => if labels.getD jc.1 "" == d then Cell.num rm.2 else jc.2))
  let dropSet := matchedLabels.filter (fun l => l != d)
  let labels2 := (labels.enum.filter (fun p => !(dropSet.contains p.2))).map Prod.snd
  let grid3 := grid2.map (fun row =>
    (row.enum.filter (fun jc => !(dropSet.contains (labels.getD jc.1 "")))).map Prod.snd)
  return (labels2, grid3)

/-- One pass of the duplicate-parameter loop body (lines 96 to 100) for the
parameter cell `p`: the group is every row whose head equals `p`; the
column-wise mean of the group tails is computed first, then written by `.loc`
into the tail of the first group row — a label-aligned assignment that pandas
refuses when the value-column labels are not unique — and the later group rows
are dropped. -/
def collapseParamOne (labels : List String) (g : List (List Cell)) (p : Cell) :
    Except String (List (List Cell)) := do
  let group := paramGroup g p
  let means ← (List.range (labels.length - 1)).mapM (fun j => do
    let m ← cellsMean (group.map (fun r => r.getD (j + 1) .empty))
    return Cell.num m)
  if hasDup (labels.drop 1) then
    throw "cannot reindex from a duplicate axis"
  else
    return writeFirstDropRest p means g

/-- Shallow embedding of `clean_data` (lines 67 to 105): scalarize every cell,
take the header tail as the date labels and prepend the `Parameter` column
(pandas `insert` refuses a clashing label), run the duplicate-date loop when
any column label repeats, then the duplicate-parameter loop when any parameter
cell repeats, and reset the index. -/
def clean_data (t : RawTable) : Except String CleanTable := do
  let grid0 := scalarizeGrid t.body
  let dates := t.header.drop 1
  if dates.contains "Parameter" then
    throw "cannot insert item Parameter, already exists"
  let labels := "Parameter" :: dates
  let st ←
    if hasDup labels then
      (dupLabels labels).foldlM collapseDateOne (labels, grid0)
    else
      pure (labels, grid0)
  let params := st.2.map rowParam
  let grid2 ←
    if hasDup params then
      (dupLabels params).foldlM (collapseParamOne st.1) st.2
    else
      pure st.2
  return { labels := st.1, grid := grid2 }

/-- Digit-string reading used by the numeric and date parsers below. -/
def parseDigits : List Char → Option ℕ
  | [] => none
  | cs =>
    if cs.all Char.isDigit then
      some (cs.foldl (fun n c => 10 * n + (c.toNat - 48)) 0)
    else none

/-- Split of a character list at every occurrence of `sep`, kernel-computable
counterpart of `String.splitOn` for a one-character separator. -/
def splitOnChar (sep : Char) : List Char → List (List Char)
  | [] => [[]]
  | c :: t =>
    let r := splitOnChar sep t
    if c == sep then [] :: r else (c :: r.headD []) :: r.tail

/-- Unsigned numeric literal: digits with an optional decimal part. -/
def parseUnsigned (cs : List Char) : Option ℚ :=
  match splitOnChar '.' cs with
  | [a] => (parseDigits a).map (fun n => (n : ℚ))
  | [a, b] =>
    match parseDigits a, parseDigits b with
    | some n, some m => some ((n : ℚ) + (m : ℚ) / ((10 : ℚ) ^ b.length))
    | _, _ => none
  | _ => none

/-- Numeric reading of a text cell, standing for the type inference pandas
applies while parsing a file: an optional sign, digits, an optional decimal
part.  Other numeric spellings are outside the fragment exercised here. -/
def parseNumQ (s : String) : Option ℚ :=
  match s.data with
  | '-' :: t => (parseUnsigned t).map (fun q => -q)
  | cs => parseUnsigned cs

/-- How one textual cell of a source file arrives in the DataFrame: empty text
is a missing value, numeric text is a number, any other text stays a string. -/
def inferCell (s : String) : Cell :=
  if s = "" then .empty
  else
    match parseNumQ s with
    | some q => .num q
    | none => .str s

/-- A sheet grid of textual cells turned into a `RawTable` the way `read_csv`
and `read_excel` do with default arguments: the first row becomes the column
headers, the remaining rows the typed body cells. -/
def parseSheet (g : List (List String)) : RawTable :=
  { header := g.headD [], body := (g.drop 1).map (fun r => r.map inferCell) }

/-- Does the file name end in `.csv` (kernel-computable counterpart of
`String.endsWith`). -/
def nameEndsCsv (s : String) : Bool :=
  s.data.reverse.take 4 == ['v', 's', 'c', '.']

/-- An uploaded file: its declared name, and its content under the two
readings the loader can apply — as one comma-separated grid, or as a workbook
of named sheets.  A call consults exactly one of the two readings. -/
structure UploadedFile where
  name : String
  csvGrid : List (List String)
  sheets : List (String × List (List String))

/-- Shallow embedding of `load_spreadsheet` (lines 60 to 64): a `.csv` name
gives exactly one table under the fixed key `Sheet1`, anything else gives one
table per workbook sheet keyed by its sheet name. -/
def load_spreadsheet (f : UploadedFile) : List (String × RawTable) :=
  if nameEndsCsv f.name then [("Sheet1", parseSheet f.csvGrid)]
  else f.sheets.map (fun ng => (ng.1, parseSheet ng.2))

/-- Value row of the cleaned table whose parameter cell equals `p`, the way a
column of `data.set_index('Parameter').T` selects it; the tables reached by
the view builders have unique parameters, so the first match is the match. -/
def rowOf (ct : CleanTable) (p : Cell) : List Cell :=
  ((paramGroup ct.grid p).headD []).drop 1

/-- Cast of one cell to float (`astype(float)`).  String content would have to
be numeric text to survive the cast; no string survives into the canonical
tables the views consume, so strings are modelled as cast failures, and
missing values are dropped before every cast below. -/
def cellFloat : Cell → Except String ℚ
  | .num q => .ok q
  | .str _ => .error "could not convert string to float"
  | .empty => .error "cannot convert missing value to float"

/-- Data part of `scatter_plot` (lines 108 to 110): the transposed table is
restricted to the two chosen parameter columns, date rows holding a missing
value are dropped, the rest is cast to float, and one (x, y) point per
remaining date goes to the chart library. -/
def scatter_plot (ct : CleanTable) (px py : Cell) : Except String (List (ℚ × ℚ)) := do
  let xs := rowOf ct px
  let ys := rowOf ct py
  let pairs := (xs.zip ys).filter (fun ab => !(ab.1 == Cell.empty) && !(ab.2 == Cell.empty))
  pairs.mapM (fun ab => do
    let qa ← cellFloat ab.1
    let qb ← cellFloat ab.2
    return (qa, qb))

/-- Data part of `ratio_plot` (lines 142 to 146): transpose, select the two
parameter columns, drop date rows with a missing entry, cast to float, replace
an exactly-zero denominator by the NaN marker and divide.  `none` is the NaN
ratio the code produces for a zero denominator. -/
def ratio_plot (ct : CleanTable) (pn pdn : Cell) :
    Except String (List (String × Option ℚ)) := do
  let dates := ct.labels.drop 1
  let ns := rowOf ct pn
  let ds := rowOf ct pdn
  let rows := (dates.zip (ns.zip ds)).filter
    (fun r => !(r.2.1 == Cell.empty) && !(r.2.2 == Cell.empty))
  rows.mapM (fun r => do
    let qa ← cellFloat r.2.1
    let qb ← cellFloat r.2.2
    return (r.1, if qb == 0 then none else some (qa / qb)))

/-- Points of a ratio series the chart actually shows: plotly omits NaN
values, so exactly the defined ratios are rendered, in series order. -/
def renderedPoints (l : List (String × Option ℚ)) : List (String × ℚ) :=
  l.filterMap (fun r => r.2.map (fun q => (r.1, q)))

/-- Long-form records of `melt(id_vars='Parameter')` at line 123: one
(parameter, date label, value) triple per value cell, stacked column by
column, each column contributing its rows in table order. -/
def meltRecords (ct : CleanTable) : List (Cell × String × Cell) :=
  (ct.labels.drop 1).enum.flatMap (fun jd =>
    ct.grid.map (fun r => (r.headD .empty, jd.2, r.getD (jd.1 + 1) .empty)))

/-- Single comparable key for one parsed calendar date. -/
def dateKey (y m d : ℕ) : ℕ := y * 10000 + m * 100 + d

/-- Model of `pd.to_datetime(_, errors='coerce')` (a dateutil parse) for the
label shapes exercised in this development: ISO `YYYY-MM-DD`, and `A/B/YYYY`
read month-first with a day-first fallback when the first field exceeds 12.
A label of any other shape coerces to the missing marker `none`. -/
def parseDate (s : String) : Option ℕ :=
  match (splitOnChar '-' s.data).map parseDigits with
  | [some yn, some mn, some dn] =>
    if 1 ≤ mn && mn ≤ 12 && 1 ≤ dn && dn ≤ 31 then some (dateKey yn mn dn) else none
  | _ =>
    match (splitOnChar '/' s.data).map parseDigits with
    | [some an, some bn, some yn] =>
      if 1 ≤ an && an ≤ 12 && 1 ≤ bn && bn ≤ 31 then some (dateKey yn an bn)
      else if 1 ≤ bn && bn ≤ 12 && 1 ≤ an && an ≤ 31 then some (dateKey yn bn an)
      else none
    | _ => none

/-- Is the cell a string. -/
def isStr : Cell → Bool
  | .str _ => true
  | _ => false

/-- Is the cell a censored string (one that the scalarization pass zeroes). -/
def censoredCell : Cell → Bool
  | .str s => censored s
  | _ => false

/-- Mean row of the group of parameter `p` over the grid `g`, with `w` value
columns: the row the specification says duplicate-parameter collapsing leaves
behind for a duplicated parameter. -/
def meanRow (g : List (List Cell)) (w : ℕ) (p : Cell) : List Cell :=
  p :: (List.range w).map (fun j =>
    Cell.num (qmean ((paramGroup g p).map (fun r => cellQ (r.getD (j + 1) .empty)))))

/-- Specification-side duplicate-parameter collapsing, traversing the rows in
order: the first row of a parameter occurring more than once is replaced by
the group's column-wise `meanRow` and its later rows are skipped; a parameter
occurring once keeps its row unchanged.  `g0` is the whole grid the groups and
means are read from, `seen` the duplicated parameters already emitted. -/
def collapseSpecAux (g0 : List (List Cell)) (w : ℕ) (seen : List Cell) :
    List (List Cell) → List (List Cell)
  | [] => []
  | r :: rest =>
    if 2 ≤ (paramGroup g0 (rowParam r)).length then
      if seen.contains (rowParam r) then collapseSpecAux g0 w seen rest
      else meanRow g0 w (rowParam r) :: collapseSpecAux g0 w (rowParam r :: seen) rest
    else r :: collapseSpecAux g0 w seen rest

/-- Specification-side collapsing of a whole grid: one output row per distinct
parameter, in first-occurrence order; a group of size above one is merged into
its mean row at the first row's place, a group of size one passes through. -/
def collapseSpec (g0 : List (List Cell)) (w : ℕ) : List (List Cell) :=
  collapseSpecAux g0 w [] g0

/-- Traversal underlying the correctness proof of the duplicate-parameter
loop: like `collapseSpecAux`, but the parameters to be collapsed are given
explicitly as the list `L` instead of by their group size. -/
def applyAllAux (g0 : List (List Cell)) (w : ℕ) (L : List Cell) (seen : List Cell) :
    List (List Cell) → List (List Cell)
  | [] => []
  | r :: rest =>
    if L.contains (rowParam r) then
      if seen.contains (rowParam r) then applyAllAux g0 w L seen rest
      else meanRow g0 w (rowParam r) :: applyAllAux g0 w L (rowParam r :: seen) rest
    else r :: applyAllAux g0 w L seen rest

/-- The raw table obtained by feeding a cleaned table back to the cleaner. -/
def toRaw (ct : CleanTable) : RawTable :=
  { header := ct.labels, body := ct.grid }

/-- The CanonicalTable shape of the specification data model: the label list
is headed by `Parameter` and duplicate-free, rows align with the labels, every
parameter cell is a string, parameters are pairwise distinct, and every value
cell is a finite float. -/
def isCanonical (ct : CleanTable) : Prop :=
  ct.labels.headD "" = "Parameter" ∧ ct.labels ≠ [] ∧ ct.labels.Nodup ∧
    (∀ r ∈ ct.grid, r.length = ct.labels.length) ∧
    (∀ r ∈ ct.grid, isStr (rowParam r) = true) ∧
    (ct.grid.map rowParam).Nodup ∧
    (∀ r ∈ ct.grid, (r.drop 1).all isNum = true)

/-- Data part of `time_series_plot` (lines 121 to 133): melt to long form,
coerce every date label to a date, drop each record whose label failed to
parse or whose value is missing, and keep the selected parameters.  A record
keeps its original label next to its parsed key so ordering can be inspected.
The builder is total: a bad label only loses its own record. -/
def time_series_plot (ct : CleanTable) (sel : List Cell) :
    List (Cell × String × ℕ × Cell) :=
  (meltRecords ct).filterMap (fun r =>
    match parseDate r.2.1 with
    | none => none
    | some k =>
      if r.2.2 == Cell.empty then none
      else if sel.contains r.1 then some (r.1, r.2.1, k, r.2.2) else none)

theorem hasDup_eq_false_iff [BEq α] [LawfulBEq α] {l : List α} :
    hasDup l = false ↔ l.Nodup := by
  induction l with
  | nil => simp [hasDup]
  | cons a t ih => simp [hasDup, ih, List.contains]

theorem mem_dupEntriesAux [BEq α] [LawfulBEq α] {l prev : List α} {a : α} :
    a ∈ dupEntriesAux prev l ↔ 1 ≤ l.count a ∧ 2 ≤ prev.count a + l.count a := by
  induction l generalizing prev with
  | nil => simp [dupEntriesAux]
  | cons x t ih =>
    by_cases hax : a = x
    · subst hax
      by_cases hmem : a ∈ prev
      · have hc : prev.contains a = true := by simpa [List.contains] using hmem
        have hp : 1 ≤ prev.count a := List.count_pos_iff.mpr hmem
        simp only [dupEntriesAux, hc, if_true, List.mem_cons, ih,
          List.count_cons_self, true_or, true_iff]
        constructor
        · omega
        · omega
      · have hc : prev.contains a = false := by
          simp [List.contains, List.elem_iff, hmem]
        have hp : prev.count a = 0 := List.count_eq_zero_of_not_mem hmem
        simp only [dupEntriesAux, hc, Bool.false_eq_true, if_false, ih,
          List.count_cons_self, hp]
        omega
    · have hxa : ¬ x = a := fun h => hax h.symm
      have h1 : (x :: t).count a = t.count a := by
        simp [List.count_cons, hax]
      have h2 : (x :: prev).count a = prev.count a := by
        simp [List.count_cons, hax]
      by_cases hc : prev.contains x
      · simp only [dupEntriesAux, hc, if_true, List.mem_cons, ih, h1, h2, hax,
          false_or]
      · simp only [dupEntriesAux, hc, Bool.false_eq_true, if_false, ih, h1, h2]

theorem mem_dupEntries [BEq α] [LawfulBEq α] {l : List α} {a : α} :
    a ∈ dupEntries l ↔ 2 ≤ l.count a := by
  have h : a ∈ dupEntriesAux ([] : List α) l ↔
      1 ≤ l.count a ∧ 2 ≤ ([] : List α).count a + l.count a := mem_dupEntriesAux
  simp only [dupEntries, h, List.count_nil]
  omega

theorem mem_firstOcc [BEq α] [LawfulBEq α] {l : List α} {a : α} :
    a ∈ firstOcc l ↔ a ∈ l := by
  induction l with
  | nil => simp [firstOcc]
  | cons x t ih =>
    by_cases hax : a = x
    · subst hax; simp [firstOcc]
    · simp [firstOcc, List.mem_filter, ih, hax]

theorem nodup_firstOcc [BEq α] [LawfulBEq α] (l : List α) : (firstOcc l).Nodup := by
  induction l with
  | nil => simp [firstOcc]
  | cons x t ih =>
    refine List.Nodup.cons ?_ (List.Nodup.filter _ ih)
    intro hx
    have := (List.mem_filter.mp hx).2
    simp at this

theorem mem_dupLabels [BEq α] [LawfulBEq α] {l : List α} {a : α} :
    a ∈ dupLabels l ↔ 2 ≤ l.count a := by
  rw [dupLabels, mem_firstOcc, mem_dupEntries]

theorem nodup_dupLabels [BEq α] [LawfulBEq α] (l : List α) : (dupLabels l).Nodup :=
  nodup_firstOcc _

theorem paramGroup_length_eq_count (g : List (List Cell)) (p : Cell) :
    (paramGroup g p).length = (g.map rowParam).count p := by
  simp only [paramGroup, List.count_eq_countP, List.countP_map, Function.comp,
    ← List.countP_eq_length_filter]
  rfl

theorem exceptMapM_ok {α β : Type} {f : α → Except String β} {g : α → β} :
    ∀ l : List α, (∀ a ∈ l, f a = .ok (g a)) → l.mapM f = .ok (l.map g) := by
  intro l h
  induction l with
  | nil => rfl
  | cons a t ih =>
    rw [List.mapM_cons, h a (List.mem_cons_self a t),
      ih (fun x hx => h x (List.mem_cons_of_mem a hx))]
    rfl

theorem exceptMapM_mem {α β : Type} {f : α → Except String β} {l : List α}
    {ys : List β} (h : l.mapM f = .ok ys) :
    ∀ y ∈ ys, ∃ x ∈ l, f x = .ok y := by
  induction l generalizing ys with
  | nil =>
    simp only [List.mapM_nil] at h
    cases h
    simp
  | cons a t ih =>
    rw [List.mapM_cons] at h
    cases hfa : f a with
    | error e => rw [hfa] at h; cases h
    | ok b =>
      rw [hfa] at h
      cases hmt : t.mapM f with
      | error e =>
        rw [hmt] at h
        cases h
      | ok bs =>
        rw [hmt] at h
        cases h
        intro y hy
        rcases List.mem_cons.mp hy with hyb | hybs
        · exact ⟨a, List.mem_cons_self a t, by rw [hfa, hyb]⟩
        · rcases ih hmt y hybs with ⟨x, hx, hfx⟩
          exact ⟨x, List.mem_cons_of_mem a hx, hfx⟩

theorem except_ok_bind {α β : Type} {a : α} {f : α → Except String β} :
    (Except.ok a : Except String α) >>= f = f a := rfl

theorem getD_drop_one (r : List Cell) (j : ℕ) (d : Cell) :
    (r.drop 1).getD j d = r.getD (j + 1) d := by
  cases r with
  | nil => simp
  | cons a t => simp [List.getD_cons_succ]

theorem isNum_getD_of_all {r : List Cell} {j : ℕ}
    (hall : (r.drop 1).all isNum = true) (hj : j + 1 < r.length) :
    isNum (r.getD (j + 1) .empty) = true := by
  have hlt : j < (r.drop 1).length := by
    rw [List.length_drop]
    omega
  have hmem : (r.drop 1).getD j .empty ∈ r.drop 1 := by
    rw [List.getD_eq_getElem (r.drop 1) .empty hlt]
    exact List.getElem_mem hlt
  rw [← getD_drop_one]
  exact List.all_eq_true.mp hall _ hmem

theorem cellsMean_ok_of_all {l : List Cell} (h : l.all isNum = true) :
    cellsMean l = .ok (qmean (l.map cellQ)) := by
  rw [cellsMean, if_pos h]

/-- The duplicate-parameter loop body succeeds and equals
`writeFirstDropRest` of the group's mean row when the value-column labels are
unique and the group rows are numeric and aligned with the labels. -/
theorem collapseParamOne_ok {labels : List String} {g : List (List Cell)} {p : Cell}
    (hL : hasDup (labels.drop 1) = false)
    (hnum : ∀ r ∈ paramGroup g p, (r.drop 1).all isNum = true)
    (halign : ∀ r ∈ paramGroup g p, r.length = labels.length) :
    collapseParamOne labels g p =
      .ok (writeFirstDropRest p ((meanRow g (labels.length - 1) p).drop 1) g) := by
  have hmap : (List.range (labels.length - 1)).mapM (fun j =>
      cellsMean ((paramGroup g p).map (fun r => r.getD (j + 1) .empty)) >>=
        (fun m => pure (Cell.num m))) =
      .ok ((List.range (labels.length - 1)).map (fun j =>
        Cell.num (qmean ((paramGroup g p).map (fun r => cellQ (r.getD (j + 1) .empty)))))) := by
    apply exceptMapM_ok
    intro j hj
    have hj2 : j < labels.length - 1 := List.mem_range.mp hj
    have hall : ((paramGroup g p).map (fun r => r.getD (j + 1) .empty)).all isNum = true := by
      rw [List.all_eq_true]
      intro c hc
      rcases List.mem_map.mp hc with ⟨r, hr, rfl⟩
      exact isNum_getD_of_all (hnum r hr) (by rw [halign r hr]; omega)
    rw [cellsMean_ok_of_all hall, List.map_map]
    rfl
  have hdrop : (meanRow g (labels.length - 1) p).drop 1 =
      (List.range (labels.length - 1)).map (fun j =>
        Cell.num (qmean ((paramGroup g p).map (fun r => cellQ (r.getD (j + 1) .empty))))) := by
    simp [meanRow]
  rw [collapseParamOne, hdrop]
  rw [hmap, except_ok_bind]
  rw [List.drop_one] at hL
  simp [hL]
  rfl

theorem rowParam_cons (a : Cell) (l : List Cell) : rowParam (a :: l) = a := rfl

theorem mem_paramGroup {g : List (List Cell)} {p : Cell} {r : List Cell}
    (h : r ∈ paramGroup g p) : r ∈ g ∧ rowParam r = p := by
  have h2 := List.mem_filter.mp h
  exact ⟨h2.1, by simpa using h2.2⟩

theorem paramGroup_cons (r : List Cell) (t : List (List Cell)) (p : Cell) :
    paramGroup (r :: t) p =
      if rowParam r == p then r :: paramGroup t p else paramGroup t p := by
  simp only [paramGroup, List.filter_cons]

theorem paramGroup_writeFirstDropRest_ne {p q : Cell} (hpq : p ≠ q)
    (m : List Cell) (g : List (List Cell)) :
    paramGroup (writeFirstDropRest q m g) p = paramGroup g p := by
  induction g with
  | nil => rfl
  | cons r t ih =>
    by_cases hr : (rowParam r == q) = true
    · have hrq : rowParam r = q := by simpa using hr
      have hqp : (rowParam r == p) = false := by
        rw [hrq]
        exact beq_eq_false_iff_ne.mpr (Ne.symm hpq)
      rw [writeFirstDropRest, if_pos hr, paramGroup_cons, rowParam_cons, hqp]
      simp only [Bool.false_eq_true, if_false]
      rw [paramGroup_cons, hqp]
      simp only [Bool.false_eq_true, if_false]
      rw [paramGroup, paramGroup, List.filter_filter]
      apply List.filter_congr
      intro r2 hr2
      by_cases hb : (rowParam r2 == p) = true
      · have hne : (rowParam r2 == q) = false := by
          have hr2p : rowParam r2 = p := by simpa using hb
          rw [hr2p]
          exact beq_eq_false_iff_ne.mpr hpq
        simp [hb, hne]
      · simp [hb]
    · rw [writeFirstDropRest, if_neg hr, paramGroup_cons, paramGroup_cons, ih]

theorem meanRow_congr {g g0 : List (List Cell)} {q : Cell} (w : ℕ)
    (h : paramGroup g q = paramGroup g0 q) : meanRow g w q = meanRow g0 w q := by
  simp [meanRow, h]

theorem meanRow_eq_cons_drop (g0 : List (List Cell)) (w : ℕ) (q : Cell) :
    q :: (meanRow g0 w q).drop 1 = meanRow g0 w q := by
  simp [meanRow]

theorem applyAllAux_nilL (g0 : List (List Cell)) (w : ℕ) (seen : List Cell) :
    ∀ g : List (List Cell), applyAllAux g0 w [] seen g = g := by
  intro g
  induction g with
  | nil => rfl
  | cons r t ih => rw [applyAllAux, if_neg (by simp), ih]

theorem applyAllAux_filter {g0 : List (List Cell)} {w : ℕ} {L : List Cell} {q : Cell}
    (hqL : L.contains q = false) :
    ∀ (rest : List (List Cell)) (s1 s2 : List Cell),
      (∀ x : Cell, s2.contains x = true ↔ x = q ∨ s1.contains x = true) →
      applyAllAux g0 w L s1 (rest.filter (fun r2 => !(rowParam r2 == q))) =
        applyAllAux g0 w (q :: L) s2 rest := by
  intro rest
  induction rest with
  | nil =>
    intro s1 s2 hs
    rfl
  | cons r t ih =>
    intro s1 s2 hs
    by_cases hr : (rowParam r == q) = true
    · have hrq : rowParam r = q := by simpa using hr
      rw [List.filter_cons, if_neg (by simp [hr])]
      have hc1 : ((q :: L).contains (rowParam r)) = true := by simp [hrq]
      have hc2 : (s2.contains (rowParam r)) = true := by
        rw [hrq]
        exact (hs q).mpr (Or.inl rfl)
      rw [applyAllAux, if_pos hc1, if_pos hc2]
      exact ih s1 s2 hs
    · have hrq : rowParam r ≠ q := by simpa using hr
      rw [List.filter_cons, if_pos (by simp [hr])]
      have hcL : ((q :: L).contains (rowParam r)) = L.contains (rowParam r) := by
        rw [List.contains_cons, beq_eq_false_iff_ne.mpr hrq, Bool.false_or]
      by_cases hL1 : (L.contains (rowParam r)) = true
      · by_cases hs1 : (s1.contains (rowParam r)) = true
        · have hs2 : (s2.contains (rowParam r)) = true :=
            (hs (rowParam r)).mpr (Or.inr hs1)
          rw [applyAllAux, if_pos hL1, if_pos hs1,
            applyAllAux, if_pos (by rw [hcL]; exact hL1), if_pos hs2]
          exact ih s1 s2 hs
        · have hs2 : ¬ ((s2.contains (rowParam r)) = true) := by
            intro hcon
            rcases (hs (rowParam r)).mp hcon with h | h
            · exact hrq h
            · exact hs1 h
          rw [applyAllAux, if_pos hL1, if_neg hs1,
            applyAllAux, if_pos (by rw [hcL]; exact hL1), if_neg hs2]
          have hsx : ∀ x : Cell, ((rowParam r :: s2).contains x = true) ↔
              (x = q ∨ (rowParam r :: s1).contains x = true) := by
            intro x
            have h2 := hs x
            simp only [List.contains_cons, Bool.or_eq_true, beq_iff_eq] at h2 ⊢
            tauto
          rw [ih (rowParam r :: s1) (rowParam r :: s2) hsx]
      · rw [applyAllAux, if_neg hL1,
          applyAllAux, if_neg (by rw [hcL]; exact hL1)]
        rw [ih s1 s2 hs]

theorem applyAllAux_write {g0 : List (List Cell)} {w : ℕ} {L : List Cell} {q : Cell}
    (hqL : L.contains q = false) :
    ∀ (g : List (List Cell)) (seen : List Cell), seen.contains q = false →
      applyAllAux g0 w L seen (writeFirstDropRest q ((meanRow g0 w q).drop 1) g) =
        applyAllAux g0 w (q :: L) seen g := by
  intro g
  induction g with
  | nil =>
    intro seen hsq
    rfl
  | cons r t ih =>
    intro seen hsq
    by_cases hr : (rowParam r == q) = true
    · have hrq : rowParam r = q := by simpa using hr
      rw [writeFirstDropRest, if_pos hr]
      rw [applyAllAux, rowParam_cons, if_neg (by rw [hrq, hqL]; simp)]
      have hc1 : ((q :: L).contains (rowParam r)) = true := by simp [hrq]
      rw [applyAllAux, if_pos hc1, if_neg (by rw [hrq, hsq]; simp), hrq,
        meanRow_eq_cons_drop]
      have hsx : ∀ x : Cell, ((q :: seen).contains x = true) ↔
          (x = q ∨ seen.contains x = true) := by
        intro x
        simp only [List.contains_cons, Bool.or_eq_true, beq_iff_eq]
      rw [applyAllAux_filter hqL t seen (q :: seen) hsx]
    · have hrq : rowParam r ≠ q := by simpa using hr
      rw [writeFirstDropRest, if_neg hr]
      have hcL : ((q :: L).contains (rowParam r)) = L.contains (rowParam r) := by
        rw [List.contains_cons, beq_eq_false_iff_ne.mpr hrq, Bool.false_or]
      by_cases hL1 : (L.contains (rowParam r)) = true
      · by_cases hs1 : (seen.contains (rowParam r)) = true
        · rw [applyAllAux, if_pos hL1, if_pos hs1,
            applyAllAux, if_pos (by rw [hcL]; exact hL1), if_pos hs1]
          exact ih seen hsq
        · rw [applyAllAux, if_pos hL1, if_neg hs1,
            applyAllAux, if_pos (by rw [hcL]; exact hL1), if_neg hs1]
          have hsq2 : ((rowParam r :: seen).contains q) = false := by
            rw [List.contains_cons, beq_eq_false_iff_ne.mpr (Ne.symm hrq), hsq]
            rfl
          rw [ih (rowParam r :: seen) hsq2]
      · rw [applyAllAux, if_neg hL1,
          applyAllAux, if_neg (by rw [hcL]; exact hL1)]
        rw [ih seen hsq]

theorem collapseSpecAux_eq_applyAllAux {g0 : List (List Cell)} {w : ℕ} {L : List Cell}
    (hiff : ∀ p : Cell, L.contains p = true ↔ 2 ≤ (paramGroup g0 p).length) :
    ∀ (rest : List (List Cell)) (seen : List Cell),
      applyAllAux g0 w L seen rest = collapseSpecAux g0 w seen rest := by
  intro rest
  induction rest with
  | nil =>
    intro seen
    rfl
  | cons r t ih =>
    intro seen
    by_cases hL1 : (L.contains (rowParam r)) = true
    · have h2 : 2 ≤ (paramGroup g0 (rowParam r)).length := (hiff _).mp hL1
      rw [applyAllAux, if_pos hL1, collapseSpecAux, if_pos h2]
      by_cases hs1 : (seen.contains (rowParam r)) = true
      · rw [if_pos hs1, if_pos hs1, ih seen]
      · rw [if_neg hs1, if_neg hs1, ih (rowParam r :: seen)]
    · have h2 : ¬ 2 ≤ (paramGroup g0 (rowParam r)).length := fun h => hL1 ((hiff _).mpr h)
      rw [applyAllAux, if_neg hL1, collapseSpecAux, if_neg h2, ih seen]

theorem collapseSpecAux_id {g0 : List (List Cell)} {w : ℕ} :
    ∀ (rest : List (List Cell)) (seen : List Cell),
      (∀ r ∈ rest, (paramGroup g0 (rowParam r)).length ≤ 1) →
      collapseSpecAux g0 w seen rest = rest := by
  intro rest
  induction rest with
  | nil =>
    intro seen _
    rfl
  | cons r t ih =>
    intro seen h
    have h1 : ¬ 2 ≤ (paramGroup g0 (rowParam r)).length := by
      have := h r (List.mem_cons_self r t)
      omega
    rw [collapseSpecAux, if_neg h1, ih seen (fun r2 hr2 => h r2 (List.mem_cons_of_mem r hr2))]

theorem foldlM_collapseParam {labels : List String} {g0 : List (List Cell)}
    (hLab : hasDup (labels.drop 1) = false) :
    ∀ (L : List Cell) (g : List (List Cell)),
      L.Nodup →
      (∀ p ∈ L, paramGroup g p = paramGroup g0 p) →
      (∀ p ∈ L, ∀ r ∈ paramGroup g0 p, (r.drop 1).all isNum = true) →
      (∀ p ∈ L, ∀ r ∈ paramGroup g0 p, r.length = labels.length) →
      L.foldlM (collapseParamOne labels) g =
        .ok (applyAllAux g0 (labels.length - 1) L [] g) := by
  intro L
  induction L with
  | nil =>
    intro g _ _ _ _
    rw [List.foldlM_nil, applyAllAux_nilL]
    rfl
  | cons q L2 ih =>
    intro g hnd hgrp hnum halign
    have hq : q ∈ q :: L2 := List.mem_cons_self q L2
    have hgq : paramGroup g q = paramGroup g0 q := hgrp q hq
    have hone : collapseParamOne labels g q = .ok
        (writeFirstDropRest q ((meanRow g (labels.length - 1) q).drop 1) g) :=
      collapseParamOne_ok hLab
        (by rw [hgq]; exact hnum q hq)
        (by rw [hgq]; exact halign q hq)
    rw [List.foldlM_cons, hone, except_ok_bind, meanRow_congr (labels.length - 1) hgq]
    have hqmem : q ∉ L2 := (List.nodup_cons.mp hnd).1
    have hqL2 : L2.contains q = false := by
      rw [Bool.eq_false_iff]
      intro hc
      exact hqmem (by simpa using hc)
    have hgrp2 : ∀ p ∈ L2,
        paramGroup (writeFirstDropRest q ((meanRow g0 (labels.length - 1) q).drop 1) g) p =
          paramGroup g0 p := by
      intro p hp
      have hpq : p ≠ q := fun h => hqmem (h ▸ hp)
      rw [paramGroup_writeFirstDropRest_ne hpq, hgrp p (List.mem_cons_of_mem q hp)]
    rw [ih _ (List.nodup_cons.mp hnd).2 hgrp2
      (fun p hp => hnum p (List.mem_cons_of_mem q hp))
      (fun p hp => halign p (List.mem_cons_of_mem q hp))]
    rw [applyAllAux_write hqL2 g [] rfl]

/-- Central characterization of `clean_data` on tables whose column labels
(the inserted `Parameter` label included) are unique: the duplicate-date loop
is skipped and the result is the specification-side parameter collapse of the
scalarized grid — provided rows align with the header and every duplicated
parameter group is numeric, which is what keeps the pandas means from
failing. -/
theorem clean_data_spec {t : RawTable}
    (hne : t.header ≠ [])
    (hU : hasDup ("Parameter" :: t.header.drop 1) = false)
    (halign : ∀ r ∈ t.body, r.length = t.header.length)
    (hnumdup : ∀ r ∈ scalarizeGrid t.body,
      2 ≤ (paramGroup (scalarizeGrid t.body) (rowParam r)).length →
        (r.drop 1).all isNum = true) :
    clean_data t = .ok
      { labels := "Parameter" :: t.header.drop 1,
        grid := collapseSpec (scalarizeGrid t.body) (t.header.length - 1) } := by
  have h0 : ((t.header.drop 1).contains "Parameter" || hasDup (t.header.drop 1)) = false := hU
  have hPnotin : (t.header.drop 1).contains "Parameter" = false :=
    (Bool.or_eq_false_iff.mp h0).1
  have hDnodup : hasDup (t.header.drop 1) = false := (Bool.or_eq_false_iff.mp h0).2
  have hlen1 : 1 ≤ t.header.length := List.length_pos.mpr hne
  have hlab : ("Parameter" :: t.header.drop 1).length = t.header.length := by
    simp only [List.length_cons, List.length_drop]
    omega
  have hwlab : ("Parameter" :: t.header.drop 1).length - 1 = t.header.length - 1 := by
    omega
  have halign0 : ∀ r ∈ scalarizeGrid t.body,
      r.length = ("Parameter" :: t.header.drop 1).length := by
    intro r hr
    rcases List.mem_map.mp hr with ⟨r2, hr2, rfl⟩
    rw [List.length_map, hlab]
    exact halign r2 hr2
  by_cases hdp : (hasDup ((scalarizeGrid t.body).map rowParam)) = true
  · simp only [clean_data, hPnotin, hU, hdp, Bool.false_eq_true, if_false, if_true,
      pure_bind]
    have hiff : ∀ p : Cell,
        (dupLabels ((scalarizeGrid t.body).map rowParam)).contains p = true ↔
          2 ≤ (paramGroup (scalarizeGrid t.body) p).length := by
      intro p
      rw [paramGroup_length_eq_count]
      constructor
      · intro hc
        exact mem_dupLabels.mp (by simpa using hc)
      · intro hc
        simpa using List.elem_eq_true_of_mem (mem_dupLabels.mpr hc)
    have hnum : ∀ p ∈ dupLabels ((scalarizeGrid t.body).map rowParam),
        ∀ r ∈ paramGroup (scalarizeGrid t.body) p, (r.drop 1).all isNum = true := by
      intro p hp r hr
      have h2 : 2 ≤ (paramGroup (scalarizeGrid t.body) p).length :=
        (hiff p).mp (by simpa using List.elem_eq_true_of_mem hp)
      rcases mem_paramGroup hr with ⟨hrg, hrp⟩
      exact hnumdup r hrg (by rw [hrp]; exact h2)
    have halign2 : ∀ p ∈ dupLabels ((scalarizeGrid t.body).map rowParam),
        ∀ r ∈ paramGroup (scalarizeGrid t.body) p,
          r.length = ("Parameter" :: t.header.drop 1).length := by
      intro p hp r hr
      exact halign0 r (mem_paramGroup hr).1
    rw [foldlM_collapseParam (by simpa using hDnodup) _ _
      (nodup_dupLabels _) (fun p hp => rfl) hnum halign2, except_ok_bind]
    rw [collapseSpecAux_eq_applyAllAux hiff, hwlab]
    rfl
  · simp only [clean_data, hPnotin, hU, hdp, Bool.false_eq_true, if_false, if_true,
      pure_bind]
    have hnd : ((scalarizeGrid t.body).map rowParam).Nodup :=
      hasDup_eq_false_iff.mp (Bool.eq_false_iff.mpr hdp)
    have hid : collapseSpec (scalarizeGrid t.body) (t.header.length - 1) =
        scalarizeGrid t.body := by
      apply collapseSpecAux_id
      intro r hr
      rw [paramGroup_length_eq_count]
      exact List.nodup_iff_count_le_one.mp hnd _
    rw [hid]
    rfl

theorem rowParam_meanRow (g0 : List (List Cell)) (w : ℕ) (p : Cell) :
    rowParam (meanRow g0 w p) = p := rfl

theorem meanRow_drop_one (g0 : List (List Cell)) (w : ℕ) (p : Cell) :
    (meanRow g0 w p).drop 1 = (List.range w).map (fun j =>
      Cell.num (qmean ((paramGroup g0 p).map (fun r => cellQ (r.getD (j + 1) .empty))))) := by
  simp [meanRow]

theorem allNum_meanRow_tail (g0 : List (List Cell)) (w : ℕ) (p : Cell) :
    ((meanRow g0 w p).drop 1).all isNum = true := by
  rw [List.all_eq_true]
  intro c hc
  rw [meanRow_drop_one] at hc
  rcases List.mem_map.mp hc with ⟨j, hj, rfl⟩
  rfl

theorem collapseSpecAux_kind {g0 : List (List Cell)} {w : ℕ} :
    ∀ (rest : List (List Cell)) (seen : List Cell) (r2 : List Cell),
      r2 ∈ collapseSpecAux g0 w seen rest →
      2 ≤ (paramGroup g0 (rowParam r2)).length ∨ r2 ∈ rest := by
  intro rest
  induction rest with
  | nil =>
    intro seen r2 h
    cases h
  | cons r t ih =>
    intro seen r2 h
    rw [collapseSpecAux] at h
    by_cases h2 : 2 ≤ (paramGroup g0 (rowParam r)).length
    · rw [if_pos h2] at h
      by_cases hs : (seen.contains (rowParam r)) = true
      · rw [if_pos hs] at h
        rcases ih seen r2 h with hk | hk
        · exact Or.inl hk
        · exact Or.inr (List.mem_cons_of_mem r hk)
      · rw [if_neg hs] at h
        rcases List.mem_cons.mp h with hk | hk
        · left
          rw [hk, rowParam_meanRow]
          exact h2
        · rcases ih _ r2 hk with hk2 | hk2
          · exact Or.inl hk2
          · exact Or.inr (List.mem_cons_of_mem r hk2)
    · rw [if_neg h2] at h
      rcases List.mem_cons.mp h with hk | hk
      · exact Or.inr (by rw [hk]; exact List.mem_cons_self r t)
      · rcases ih seen r2 hk with hk2 | hk2
        · exact Or.inl hk2
        · exact Or.inr (List.mem_cons_of_mem r hk2)

theorem nodup_params_collapseSpecAux {g0 : List (List Cell)} {w : ℕ} :
    ∀ (rest : List (List Cell)) (seen : List Cell),
      rest.Sublist g0 →
      (∀ p ∈ seen, 2 ≤ (paramGroup g0 p).length) →
      ((collapseSpecAux g0 w seen rest).map rowParam).Nodup ∧
        (∀ p ∈ (collapseSpecAux g0 w seen rest).map rowParam,
          2 ≤ (paramGroup g0 p).length → p ∉ seen) := by
  intro rest
  induction rest with
  | nil =>
    intro seen _ _
    exact ⟨List.nodup_nil, fun p hp _ => absurd hp (List.not_mem_nil p)⟩
  | cons r t ih =>
    intro seen hsub hseen
    have htsub : t.Sublist g0 := List.sublist_of_cons_sublist hsub
    rw [collapseSpecAux]
    by_cases h2 : 2 ≤ (paramGroup g0 (rowParam r)).length
    · rw [if_pos h2]
      by_cases hs : (seen.contains (rowParam r)) = true
      · rw [if_pos hs]
        exact ih seen htsub hseen
      · rw [if_neg hs]
        have hseen2 : ∀ p ∈ rowParam r :: seen, 2 ≤ (paramGroup g0 p).length := by
          intro p hp
          rcases List.mem_cons.mp hp with hp | hp
          · rw [hp]
            exact h2
          · exact hseen p hp
        rcases ih (rowParam r :: seen) htsub hseen2 with ⟨hnd, hcond⟩
        constructor
        · rw [List.map_cons, rowParam_meanRow]
          refine List.Nodup.cons ?_ hnd
          intro hmem
          by_cases hpg : 2 ≤ (paramGroup g0 (rowParam r)).length
          · exact hcond _ hmem hpg (List.mem_cons_self _ _)
          · exact hpg h2
        · intro p hp hpg
          rw [List.map_cons, rowParam_meanRow] at hp
          rcases List.mem_cons.mp hp with hp2 | hp2
          · intro hmem
            rw [hp2] at hmem
            exact hs (by simpa using List.elem_eq_true_of_mem hmem)
          · intro hmem
            exact hcond p hp2 hpg (List.mem_cons_of_mem _ hmem)
    · rw [if_neg h2]
      rcases ih seen htsub hseen with ⟨hnd, hcond⟩
      have hcount : ((r :: t).map rowParam).count (rowParam r) ≤
          (g0.map rowParam).count (rowParam r) :=
        (List.Sublist.map rowParam hsub).count_le (rowParam r)
      have hglen : (paramGroup g0 (rowParam r)).length = (g0.map rowParam).count (rowParam r) :=
        paramGroup_length_eq_count g0 (rowParam r)
      have hsplit : ((r :: t).map rowParam).count (rowParam r) =
          (t.map rowParam).count (rowParam r) + 1 := by
        rw [List.map_cons, List.count_cons_self]
      have hct : (t.map rowParam).count (rowParam r) = 0 := by omega
      constructor
      · rw [List.map_cons]
        refine List.Nodup.cons ?_ hnd
        intro hmem
        rcases List.mem_map.mp hmem with ⟨r2, hr2, hpr2⟩
        rcases collapseSpecAux_kind t seen r2 hr2 with hk | hk
        · rw [hpr2] at hk
          exact h2 hk
        · have : rowParam r ∈ t.map rowParam := by
            rw [← hpr2]
            exact List.mem_map_of_mem rowParam hk
          rw [← List.count_pos_iff] at this
          omega
      · intro p hp hpg
        rw [List.map_cons] at hp
        rcases List.mem_cons.mp hp with hp2 | hp2
        · rw [hp2] at hpg
          exact absurd hpg h2
        · exact hcond p hp2 hpg

theorem allNum_collapseSpecAux {g0 : List (List Cell)} {w : ℕ} :
    ∀ (rest : List (List Cell)) (seen : List Cell),
      (∀ r ∈ rest, (r.drop 1).all isNum = true) →
      ∀ r2 ∈ collapseSpecAux g0 w seen rest, (r2.drop 1).all isNum = true := by
  intro rest
  induction rest with
  | nil =>
    intro seen _ r2 h
    cases h
  | cons r t ih =>
    intro seen hall r2 h
    rw [collapseSpecAux] at h
    by_cases h2 : 2 ≤ (paramGroup g0 (rowParam r)).length
    · rw [if_pos h2] at h
      by_cases hs : (seen.contains (rowParam r)) = true
      · rw [if_pos hs] at h
        exact ih seen (fun x hx => hall x (List.mem_cons_of_mem r hx)) r2 h
      · rw [if_neg hs] at h
        rcases List.mem_cons.mp h with hk | hk
        · rw [hk]
          exact allNum_meanRow_tail g0 w (rowParam r)
        · exact ih _ (fun x hx => hall x (List.mem_cons_of_mem r hx)) r2 hk
    · rw [if_neg h2] at h
      rcases List.mem_cons.mp h with hk | hk
      · rw [hk]
        exact hall r (List.mem_cons_self r t)
      · exact ih seen (fun x hx => hall x (List.mem_cons_of_mem r hx)) r2 hk

theorem mem_collapseSpecAux_of_single {g0 : List (List Cell)} {w : ℕ} :
    ∀ (rest : List (List Cell)) (seen : List Cell) (r : List Cell),
      r ∈ rest → (paramGroup g0 (rowParam r)).length ≤ 1 →
      r ∈ collapseSpecAux g0 w seen rest := by
  intro rest
  induction rest with
  | nil =>
    intro seen r h _
    cases h
  | cons r1 t ih =>
    intro seen r h hle
    rw [collapseSpecAux]
    rcases List.mem_cons.mp h with hk | hk
    · rw [← hk]
      have h2 : ¬ 2 ≤ (paramGroup g0 (rowParam r)).length := by omega
      rw [if_neg h2]
      exact List.mem_cons_self r _
    · by_cases h2 : 2 ≤ (paramGroup g0 (rowParam r1)).length
      · rw [if_pos h2]
        by_cases hs : (seen.contains (rowParam r1)) = true
        · rw [if_pos hs]
          exact ih seen r hk hle
        · rw [if_neg hs]
          exact List.mem_cons_of_mem _ (ih _ r hk hle)
      · rw [if_neg h2]
        exact List.mem_cons_of_mem _ (ih seen r hk hle)

theorem getD_map_scalarize (l : List Cell) (j : ℕ) (hj : j < l.length) :
    (l.map scalarizeCell).getD j .empty = scalarizeCell (l.getD j .empty) := by
  rw [List.getD_eq_getElem?_getD, List.getD_eq_getElem?_getD, List.getElem?_map,
    List.getElem?_eq_getElem hj]
  rfl

theorem scalarizeGrid_row {b : List (List Cell)} {i : ℕ} (hi : i < b.length) :
    (scalarizeGrid b).getD i [] = (b.getD i []).map scalarizeCell := by
  rw [scalarizeGrid, List.getD_eq_getElem?_getD, List.getD_eq_getElem?_getD,
    List.getElem?_map, List.getElem?_eq_getElem hi]
  rfl

theorem params_collapseSpecAux {g0 : List (List Cell)} {w : ℕ} :
    ∀ (rest : List (List Cell)) (seen : List Cell),
      rest.Sublist g0 →
      (∀ p ∈ seen, 2 ≤ (paramGroup g0 p).length) →
      (collapseSpecAux g0 w seen rest).map rowParam =
        (firstOcc (rest.map rowParam)).filter (fun p => !(seen.contains p)) := by
  intro rest
  induction rest with
  | nil =>
    intro seen _ _
    rfl
  | cons r t ih =>
    intro seen hsub hseen
    have htsub : t.Sublist g0 := List.sublist_of_cons_sublist hsub
    rw [collapseSpecAux, List.map_cons, firstOcc]
    by_cases h2 : 2 ≤ (paramGroup g0 (rowParam r)).length
    · rw [if_pos h2]
      by_cases hs : (seen.contains (rowParam r)) = true
      · rw [if_pos hs, List.filter_cons, ih seen htsub hseen]
        have hc : (!(seen.contains (rowParam r))) = false := by rw [hs]; rfl
        rw [hc]
        simp only [Bool.false_eq_true, if_false]
        rw [List.filter_filter]
        apply List.filter_congr
        intro a ha
        by_cases hap : a = rowParam r
        · rw [hap, hs, beq_self_eq_true]
          rfl
        · rw [beq_eq_false_iff_ne.mpr hap, Bool.not_false, Bool.and_true]
      · rw [if_neg hs, List.map_cons, rowParam_meanRow, List.filter_cons]
        have hc : (!(seen.contains (rowParam r))) = true := by
          rw [Bool.eq_false_iff.mpr hs]
          rfl
        rw [hc, if_pos rfl]
        have hseen2 : ∀ p ∈ rowParam r :: seen, 2 ≤ (paramGroup g0 p).length := by
          intro p hp
          rcases List.mem_cons.mp hp with hp | hp
          · rw [hp]
            exact h2
          · exact hseen p hp
        rw [ih (rowParam r :: seen) htsub hseen2, List.filter_filter]
        refine congrArg (List.cons (rowParam r)) ?_
        apply List.filter_congr
        intro a ha
        simp only [List.contains_cons, Bool.not_or, Bool.and_comm]
    · rw [if_neg h2]
      have hns : rowParam r ∉ seen := by
        intro hmem
        exact h2 (hseen (rowParam r) hmem)
      have hc : (!(seen.contains (rowParam r))) = true := by
        have : (seen.contains (rowParam r)) = false := by
          rw [Bool.eq_false_iff]
          intro hcon
          exact hns (by simpa using hcon)
        rw [this]
        rfl
      rw [List.map_cons, List.filter_cons, hc, if_pos rfl, ih seen htsub hseen]
      have hcount : ((r :: t).map rowParam).count (rowParam r) ≤
          (g0.map rowParam).count (rowParam r) :=
        (List.Sublist.map rowParam hsub).count_le (rowParam r)
      have hglen : (paramGroup g0 (rowParam r)).length = (g0.map rowParam).count (rowParam r) :=
        paramGroup_length_eq_count g0 (rowParam r)
      have hsplit : ((r :: t).map rowParam).count (rowParam r) =
          (t.map rowParam).count (rowParam r) + 1 := by
        rw [List.map_cons, List.count_cons_self]
      have hct : (t.map rowParam).count (rowParam r) = 0 := by omega
      rw [List.filter_filter]
      refine congrArg (List.cons (rowParam r)) ?_
      apply List.filter_congr
      intro a ha
      have hat : a ∈ t.map rowParam := mem_firstOcc.mp ha
      have hanp : a ≠ rowParam r := by
        intro hae
        rw [hae] at hat
        rw [← List.count_pos_iff] at hat
        omega
      simp [beq_eq_false_iff_ne.mpr hanp]

theorem params_collapseSpec (g0 : List (List Cell)) (w : ℕ) :
    (collapseSpec g0 w).map rowParam = firstOcc (g0.map rowParam) := by
  rw [collapseSpec, params_collapseSpecAux g0 [] (List.Sublist.refl g0) (by simp)]
  apply List.filter_eq_self.mpr
  intro a ha
  rfl

/-- C1.  Scalarization, cell by cell over the whole table: a string cell that
begins with `<` after trimming becomes the number 0, an empty or missing cell
becomes 0, and a numeric cell passes through with its value unchanged. -/
theorem c1_scalarization (t : RawTable) (i j : ℕ)
    (hi : i < t.body.length) (hj : j < (t.body.getD i []).length) :
    (∀ s : String, (t.body.getD i []).getD j .empty = .str s → censored s = true →
      ((scalarizeGrid t.body).getD i []).getD j .empty = .num 0) ∧
    ((t.body.getD i []).getD j .empty = .empty →
      ((scalarizeGrid t.body).getD i []).getD j .empty = .num 0) ∧
    (∀ q : ℚ, (t.body.getD i []).getD j .empty = .num q →
      ((scalarizeGrid t.body).getD i []).getD j .empty = .num q) := by
  have hkey : ((scalarizeGrid t.body).getD i []).getD j .empty =
      scalarizeCell ((t.body.getD i []).getD j .empty) := by
    rw [scalarizeGrid_row hi, getD_map_scalarize _ _ hj]
  refine ⟨?_, ?_, ?_⟩
  · intro s hs hc
    rw [hkey, hs]
    simp only [scalarizeCell]
    rw [if_pos hc]
  · intro hs
    rw [hkey, hs]
    rfl
  · intro q hs
    rw [hkey, hs]
    rfl

theorem c1_scalarization_witness :
    ((scalarizeGrid [[Cell.str " <0.1", Cell.empty, Cell.num 7]]).getD 0 []).getD 0
      Cell.empty = Cell.num 0 :=
  (c1_scalarization
    ⟨["P", "d1", "d2"], [[Cell.str " <0.1", Cell.empty, Cell.num 7]]⟩ 0 0
    (by decide) (by decide)).1 " <0.1" rfl (by decide)

/-- C3.  The duplicate-date loop does not remove exactly duplicated columns:
on the labels `[d, d]` both columns survive, each holding the pair mean 2.0 —
while the loop's drop list `[col for col in cols if col != date]` is empty.
The app's own help text promises duplicate dates are merged into one
column. -/
theorem c3_duplicate_date_columns_remain :
    clean_data { header := ["H", "d", "d"], body := [[.str "p", .num 1, .num 3]] } =
      .ok { labels := ["Parameter", "d", "d"], grid := [[.str "p", .num 2, .num 2]] } := by
  rw [show (2 : ℚ) = qmean [1, 3, 1, 3] from by norm_num [qmean]]
  rfl

/-- C2 fails as stated: a non-empty, non-censored string cell passes through
the normalizer, so an output value cell can be a string rather than a finite
float. -/
theorem c2_canonical_invariants_counterexample :
    clean_data { header := ["P", "d"], body := [[.str "p", .str "abc"]] } =
      .ok { labels := ["Parameter", "d"], grid := [[.str "p", .str "abc"]] } ∧
    ¬ (∀ r ∈ [[Cell.str "p", Cell.str "abc"]], (r.drop 1).all isNum = true) :=
  ⟨rfl, by decide⟩

/-- C2 (amended).  For a table with unique column labels, rows aligned with
the header, and every value cell numeric, censored, or missing, the normalizer
succeeds and its output has unique column labels, pairwise-distinct parameter
cells, and only numeric value cells. -/
theorem c2_canonical_invariants (t : RawTable)
    (hne : t.header ≠ [])
    (hU : hasDup ("Parameter" :: t.header.drop 1) = false)
    (halign : ∀ r ∈ t.body, r.length = t.header.length)
    (hnum : ∀ r ∈ t.body, ((r.map scalarizeCell).drop 1).all isNum = true) :
    ∃ ct : CleanTable, clean_data t = .ok ct ∧
      ct.labels = "Parameter" :: t.header.drop 1 ∧ ct.labels.Nodup ∧
      (ct.grid.map rowParam).Nodup ∧
      ∀ r ∈ ct.grid, (r.drop 1).all isNum = true := by
  have hnum0 : ∀ r ∈ scalarizeGrid t.body, (r.drop 1).all isNum = true := by
    intro r hr
    rcases List.mem_map.mp hr with ⟨r2, hr2, rfl⟩
    exact hnum r2 hr2
  refine ⟨_, clean_data_spec hne hU halign (fun r hr _ => hnum0 r hr), rfl, ?_, ?_, ?_⟩
  · exact hasDup_eq_false_iff.mp hU
  · exact (nodup_params_collapseSpecAux (scalarizeGrid t.body) []
      (List.Sublist.refl _) (by simp)).1
  · intro r hr
    exact allNum_collapseSpecAux (scalarizeGrid t.body) [] hnum0 r hr

theorem c2_canonical_invariants_witness :
    ∃ ct : CleanTable,
      clean_data ⟨["P", "d1", "d2"],
        [[Cell.str "a", Cell.num 1, Cell.str "<2"],
          [Cell.str "a", Cell.num 3, Cell.empty],
          [Cell.str "b", Cell.num 5, Cell.num 6]]⟩ = .ok ct ∧
      ct.labels = "Parameter" :: (["P", "d1", "d2"] : List String).drop 1 ∧
      ct.labels.Nodup ∧ (ct.grid.map rowParam).Nodup ∧
      ∀ r ∈ ct.grid, (r.drop 1).all isNum = true :=
  c2_canonical_invariants _ (by decide) (by decide) (by decide) (by decide)

/-- C4.  Duplicate-parameter collapsing: the normalizer groups rows by
equality of the parameter cell; a group of size above one is replaced by the
column-wise mean row standing at the first occurrence's place, the group's
later rows are dropped, a group of size one passes through, and the output
parameter sequence is the first-occurrence deduplication of the input one. -/
theorem c4_duplicate_parameter_collapsing (t : RawTable)
    (hne : t.header ≠ [])
    (hU : hasDup ("Parameter" :: t.header.drop 1) = false)
    (halign : ∀ r ∈ t.body, r.length = t.header.length)
    (hnum : ∀ r ∈ t.body, ((r.map scalarizeCell).drop 1).all isNum = true) :
    clean_data t = .ok
        ⟨"Parameter" :: t.header.drop 1,
          collapseSpec (scalarizeGrid t.body) (t.header.length - 1)⟩ ∧
      (collapseSpec (scalarizeGrid t.body) (t.header.length - 1)).map rowParam =
        firstOcc ((scalarizeGrid t.body).map rowParam) := by
  constructor
  · exact clean_data_spec hne hU halign (fun r hr _ => by
      rcases List.mem_map.mp hr with ⟨r2, hr2, rfl⟩
      exact hnum r2 hr2)
  · exact params_collapseSpec _ _

theorem c4_duplicate_parameter_collapsing_witness :
    (clean_data ⟨["P", "d"],
        [[Cell.str "pH", Cell.num 7], [Cell.str "T", Cell.num 1],
          [Cell.str "pH", Cell.num 8]]⟩ =
      .ok ⟨"Parameter" :: (["P", "d"] : List String).drop 1,
        collapseSpec (scalarizeGrid [[Cell.str "pH", Cell.num 7],
          [Cell.str "T", Cell.num 1], [Cell.str "pH", Cell.num 8]])
          ((["P", "d"] : List String).length - 1)⟩ ∧
      (collapseSpec (scalarizeGrid [[Cell.str "pH", Cell.num 7],
          [Cell.str "T", Cell.num 1], [Cell.str "pH", Cell.num 8]])
          ((["P", "d"] : List String).length - 1)).map rowParam =
        firstOcc ((scalarizeGrid [[Cell.str "pH", Cell.num 7],
          [Cell.str "T", Cell.num 1], [Cell.str "pH", Cell.num 8]]).map rowParam)) ∧
    collapseSpec (scalarizeGrid [[Cell.str "pH", Cell.num 7],
        [Cell.str "T", Cell.num 1], [Cell.str "pH", Cell.num 8]]) 1 =
      [[Cell.str "pH", Cell.num (15 / 2)], [Cell.str "T", Cell.num 1]] := by
  constructor
  · exact c4_duplicate_parameter_collapsing _ (by decide) (by decide) (by decide) (by decide)
  · rw [show ((15 : ℚ) / 2) = qmean [7, 8] from by norm_num [qmean],
      show (1 : ℚ) = qmean [1] from by norm_num [qmean]]
    rfl

/-- C10 fails as stated: with a duplicated parameter, the group mean runs over
the malformed string cell and the normalization aborts instead of passing the
string through. -/
theorem c10_malformed_passthrough_counterexample :
    clean_data ⟨["P", "d"], [[.str "p", .str "abc"], [.str "p", .num 1]]⟩ =
      .error "could not convert cells to numeric" := by
  rfl

/-- C10 (amended).  A non-empty, non-censored string cell in a row whose
parameter is not duplicated, in a table with unique column labels whose
duplicated groups are numeric, survives normalization unchanged: its whole row
reappears in the output with the string still in place, and no error is
raised. -/
theorem c10_malformed_passthrough (t : RawTable)
    (hne : t.header ≠ [])
    (hU : hasDup ("Parameter" :: t.header.drop 1) = false)
    (halign : ∀ r ∈ t.body, r.length = t.header.length)
    (hnumdup : ∀ r ∈ scalarizeGrid t.body,
      2 ≤ (paramGroup (scalarizeGrid t.body) (rowParam r)).length →
        (r.drop 1).all isNum = true)
    (i j : ℕ) (hi : i < t.body.length) (hj0 : 1 ≤ j) (hj : j < (t.body.getD i []).length)
    (s : String) (hs : (t.body.getD i []).getD j .empty = .str s) (hsne : s ≠ "")
    (hcens : censored s = false)
    (hsingle : (paramGroup (scalarizeGrid t.body)
      (rowParam ((t.body.getD i []).map scalarizeCell))).length ≤ 1) :
    ∃ ct : CleanTable, clean_data t = .ok ct ∧
      (t.body.getD i []).map scalarizeCell ∈ ct.grid ∧
      ((t.body.getD i []).map scalarizeCell).getD j .empty = .str s := by
  refine ⟨_, clean_data_spec hne hU halign hnumdup, ?_, ?_⟩
  · have hrow : (t.body.getD i []) ∈ t.body := by
      have h1 : t.body.getD i [] = t.body[i] := by
        rw [List.getD_eq_getElem?_getD, List.getElem?_eq_getElem hi]
        rfl
      rw [h1]
      exact List.getElem_mem hi
    have hmem0 : (t.body.getD i []).map scalarizeCell ∈ scalarizeGrid t.body :=
      List.mem_map_of_mem _ hrow
    exact mem_collapseSpecAux_of_single (scalarizeGrid t.body) [] _ hmem0 hsingle
  · rw [getD_map_scalarize _ _ hj, hs]
    simp only [scalarizeCell]
    rw [if_neg (by rw [hcens]; simp)]

theorem c10_malformed_passthrough_witness :
    ∃ ct : CleanTable,
      clean_data ⟨["P", "d1"],
        [[Cell.str "p", Cell.str "abc"], [Cell.str "q", Cell.num 1]]⟩ = .ok ct ∧
      (([[Cell.str "p", Cell.str "abc"], [Cell.str "q", Cell.num 1]] :
        List (List Cell)).getD 0 []).map scalarizeCell ∈ ct.grid ∧
      ((([[Cell.str "p", Cell.str "abc"], [Cell.str "q", Cell.num 1]] :
        List (List Cell)).getD 0 []).map scalarizeCell).getD 1 .empty = .str "abc" :=
  c10_malformed_passthrough _ (by decide) (by decide) (by decide) (by decide)
    0 1 (by decide) (by decide) (by decide) "abc" rfl (by decide) (by decide) (by decide)

theorem map_scalarize_id {l : List Cell} (h : l.all isNum = true) :
    l.map scalarizeCell = l := by
  induction l with
  | nil => rfl
  | cons c t ih =>
    rw [List.all_cons, Bool.and_eq_true] at h
    rw [List.map_cons, ih h.2]
    cases c with
    | num q => rfl
    | str s => cases h.1
    | empty => cases h.1

/-- C5 fails as stated: a table satisfying every CanonicalTable invariant
whose parameter label begins with `<` is not a fixed point of the normalizer —
feeding it back zeroes the label. -/
theorem c5_idempotence_counterexample :
    isCanonical ⟨["Parameter", "d"], [[.str "<a", .num 1]]⟩ ∧
    clean_data (toRaw ⟨["Parameter", "d"], [[.str "<a", .num 1]]⟩) =
      .ok ⟨["Parameter", "d"], [[.num 0, .num 1]]⟩ ∧
    (Except.ok (⟨["Parameter", "d"], [[.num 0, .num 1]]⟩ : CleanTable) :
        Except String CleanTable) ≠
      .ok ⟨["Parameter", "d"], [[.str "<a", .num 1]]⟩ := by
  refine ⟨?_, rfl, ?_⟩
  · refine ⟨rfl, by decide, by decide, by decide, by decide, by decide, by decide⟩
  · intro h
    cases h

/-- C5 (amended).  A canonical table none of whose parameter labels begins
with `<` after trimming is a fixed point: feeding it back through the
normalizer returns it unchanged. -/
theorem c5_idempotence (ct : CleanTable) (hc : isCanonical ct)
    (hnc : ∀ r ∈ ct.grid, censoredCell (rowParam r) = false) :
    clean_data (toRaw ct) = .ok ct := by
  obtain ⟨hhead, hne, hnodup, halign, hstr, hpnd, hnum⟩ := hc
  have hsg : scalarizeGrid ct.grid = ct.grid := by
    rw [scalarizeGrid]
    have hid : ∀ r ∈ ct.grid, r.map scalarizeCell = r := by
      intro r hr
      cases r with
      | nil => rfl
      | cons c tail =>
        have hnum2 : tail.all isNum = true := hnum (c :: tail) hr
        rw [List.map_cons, map_scalarize_id hnum2]
        have hstr2 := hstr (c :: tail) hr
        have hnc2 := hnc (c :: tail) hr
        cases c with
        | num q => rfl
        | empty => cases hstr2
        | str s =>
          have hcens : censored s = false := hnc2
          simp only [scalarizeCell]
          rw [if_neg (by rw [hcens]; simp)]
    calc ct.grid.map (fun r => r.map scalarizeCell) = ct.grid.map id :=
          List.map_congr_left hid
      _ = ct.grid := List.map_id ct.grid
  have hlabels : ct.labels = "Parameter" :: ct.labels.drop 1 := by
    cases hl : ct.labels with
    | nil => exact absurd hl hne
    | cons a l =>
      rw [hl] at hhead
      simp only [List.headD_cons] at hhead
      rw [hhead]
      rfl
  have hU : hasDup ("Parameter" :: (toRaw ct).header.drop 1) = false := by
    show hasDup ("Parameter" :: ct.labels.drop 1) = false
    rw [← hlabels]
    exact hasDup_eq_false_iff.mpr hnodup
  have hne2 : (toRaw ct).header ≠ [] := hne
  have halign2 : ∀ r ∈ (toRaw ct).body, r.length = (toRaw ct).header.length := halign
  have hnumdup : ∀ r ∈ scalarizeGrid (toRaw ct).body,
      2 ≤ (paramGroup (scalarizeGrid (toRaw ct).body) (rowParam r)).length →
        (r.drop 1).all isNum = true := by
    intro r hr _
    have hr2 : r ∈ ct.grid := by
      rw [show scalarizeGrid (toRaw ct).body = ct.grid from hsg] at hr
      exact hr
    exact hnum r hr2
  rw [clean_data_spec hne2 hU halign2 hnumdup]
  have hid2 : collapseSpec (scalarizeGrid (toRaw ct).body)
      ((toRaw ct).header.length - 1) = ct.grid := by
    show collapseSpec (scalarizeGrid ct.grid) (ct.labels.length - 1) = ct.grid
    rw [hsg]
    apply collapseSpecAux_id
    intro r hr
    rw [paramGroup_length_eq_count]
    exact List.nodup_iff_count_le_one.mp hpnd _
  rw [hid2]
  show Except.ok ⟨"Parameter" :: ct.labels.drop 1, ct.grid⟩ = Except.ok ct
  rw [← hlabels]

theorem c5_idempotence_witness :
    clean_data (toRaw ⟨["Parameter", "d1", "d2"],
      [[Cell.str "pH", Cell.num 7, Cell.num 8],
        [Cell.str "T", Cell.num 0, Cell.num 1]]⟩) =
      .ok ⟨["Parameter", "d1", "d2"],
        [[Cell.str "pH", Cell.num 7, Cell.num 8],
          [Cell.str "T", Cell.num 0, Cell.num 1]]⟩ :=
  c5_idempotence _
    ⟨rfl, by decide, by decide, by decide, by decide, by decide, by decide⟩
    (by decide)

theorem zip_self_eq {α : Type} : ∀ (l : List α) (ab : α × α), ab ∈ l.zip l → ab.1 = ab.2 := by
  intro l
  induction l with
  | nil =>
    intro ab h
    cases h
  | cons a t ih =>
    intro ab h
    rw [List.zip_cons_cons] at h
    rcases List.mem_cons.mp h with h | h
    · rw [h]
    · exact ih ab h

/-- C9.  Scatter view: selecting the same parameter for both axes yields
points on the identity line — every emitted pair has equal coordinates. -/
theorem c9_scatter_identity (ct : CleanTable) (p : Cell) (l : List (ℚ × ℚ))
    (h : scatter_plot ct p p = .ok l) : ∀ ab ∈ l, ab.1 = ab.2 := by
  simp only [scatter_plot] at h
  intro ab hab
  rcases exceptMapM_mem h ab hab with ⟨x, hx, hfx⟩
  have hx1 : x ∈ (rowOf ct p).zip (rowOf ct p) := List.mem_of_mem_filter hx
  have hxeq : x.1 = x.2 := zip_self_eq _ x hx1
  cases hcf : cellFloat x.1 with
  | error e =>
    rw [hcf] at hfx
    cases hfx
  | ok q =>
    have hcf2 : cellFloat x.2 = .ok q := by
      rw [← hxeq]
      exact hcf
    rw [hcf, hcf2] at hfx
    have h2 : (Except.ok (q, q) : Except String (ℚ × ℚ)) = .ok ab := hfx
    cases h2
    rfl

theorem c9_scatter_identity_witness :
    scatter_plot ⟨["Parameter", "d1", "d2"], [[Cell.str "pH", Cell.num 7, Cell.num 8]]⟩
        (Cell.str "pH") (Cell.str "pH") = .ok [((7 : ℚ), (7 : ℚ)), ((8 : ℚ), (8 : ℚ))] ∧
    ((7 : ℚ), (7 : ℚ)).1 = ((7 : ℚ), (7 : ℚ)).2 :=
  ⟨rfl, c9_scatter_identity
    ⟨["Parameter", "d1", "d2"], [[Cell.str "pH", Cell.num 7, Cell.num 8]]⟩
    (Cell.str "pH") _ rfl ((7 : ℚ), (7 : ℚ)) (by decide)⟩

/-- C8.  Loader: a file whose declared name ends in `.csv` yields exactly one
table under the fixed key `Sheet1`, parsed from the comma-separated reading
with the first row as headers; any other file yields one table per workbook
sheet, keyed by its sheet name, each with its first row as headers. -/
theorem c8_loader (f : UploadedFile) :
    (nameEndsCsv f.name = true →
      load_spreadsheet f = [("Sheet1", parseSheet f.csvGrid)] ∧
      (load_spreadsheet f).map Prod.fst = ["Sheet1"] ∧
      (parseSheet f.csvGrid).header = f.csvGrid.headD []) ∧
    (nameEndsCsv f.name = false →
      (load_spreadsheet f).map Prod.fst = f.sheets.map Prod.fst ∧
      ∀ ng ∈ f.sheets, (ng.1, parseSheet ng.2) ∈ load_spreadsheet f ∧
        (parseSheet ng.2).header = ng.2.headD []) := by
  constructor
  · intro hcsv
    rw [load_spreadsheet, if_pos hcsv]
    exact ⟨rfl, rfl, rfl⟩
  · intro hncsv
    rw [load_spreadsheet, if_neg (by rw [hncsv]; simp)]
    refine ⟨?_, ?_⟩
    · rw [List.map_map]
      rfl
    · intro ng hng
      exact ⟨List.mem_map_of_mem _ hng, rfl⟩

theorem c8_loader_witness :
    load_spreadsheet ⟨"data.csv", [["P", "d"], ["pH", "7"]], []⟩ =
      [("Sheet1", parseSheet [["P", "d"], ["pH", "7"]])] ∧
    (load_spreadsheet ⟨"data.csv", [["P", "d"], ["pH", "7"]], []⟩).map Prod.fst =
      ["Sheet1"] ∧
    (parseSheet [["P", "d"], ["pH", "7"]]).header =
      ([["P", "d"], ["pH", "7"]] : List (List String)).headD [] :=
  (c8_loader _).1 (by decide)

theorem filterMap_map_proj_sublist {α β : Type} (F : α → Option β) (proj : β → α)
    (hpr : ∀ a b, F a = some b → proj b = a) :
    ∀ l : List α, ((l.filterMap F).map proj).Sublist l := by
  intro l
  induction l with
  | nil => simp
  | cons a t ih =>
    rw [List.filterMap_cons]
    cases hFa : F a with
    | none => exact ih.cons a
    | some b =>
      rw [List.map_cons, hpr a b hFa]
      exact ih.cons₂ a

/-- C7 fails as stated on its ordering half: the records of the time-series
view keep the input column order; labels out of chronological order are not
re-sorted by the parsed date.  The invalid label `13/13/2022` is dropped, as
the other half of the claim says. -/
theorem c7_time_series_sorted_counterexample :
    time_series_plot ⟨["Parameter", "2022-02-01", "2022-01-01", "13/13/2022"],
        [[.str "p", .num 1, .num 2, .num 3]]⟩ [.str "p"] =
      [(.str "p", "2022-02-01", 20220201, .num 1),
        (.str "p", "2022-01-01", 20220101, .num 2)] ∧
    ¬ List.Pairwise (fun a b => a.2.2.1 ≤ b.2.2.1)
      [((Cell.str "p"), "2022-02-01", 20220201, Cell.num 1),
        (Cell.str "p", "2022-01-01", 20220101, Cell.num 2)] := by
  constructor
  · rfl
  · decide

/-- C7 (amended).  Time-series view: a record whose date label fails to parse
is dropped and never aborts the view; every melt record with a parseable
label, a present value and a selected parameter appears; and the output keeps
the melt order — the input column order — rather than being re-sorted by
parsed date. -/
theorem c7_time_series (ct : CleanTable) (sel : List Cell) :
    (∀ rec ∈ time_series_plot ct sel,
      parseDate rec.2.1 = some rec.2.2.1 ∧
        (rec.1, rec.2.1, rec.2.2.2) ∈ meltRecords ct ∧
        rec.1 ∈ sel ∧ rec.2.2.2 ≠ Cell.empty) ∧
    (∀ mr ∈ meltRecords ct, ∀ k, parseDate mr.2.1 = some k → mr.2.2 ≠ Cell.empty →
      mr.1 ∈ sel → (mr.1, mr.2.1, k, mr.2.2) ∈ time_series_plot ct sel) ∧
    ((time_series_plot ct sel).map (fun rec => (rec.1, rec.2.1, rec.2.2.2))).Sublist
      (meltRecords ct) := by
  refine ⟨?_, ?_, ?_⟩
  · intro rec hrec
    rw [time_series_plot] at hrec
    rcases List.mem_filterMap.mp hrec with ⟨mr, hmr, hF⟩
    cases hpd : parseDate mr.2.1 with
    | none =>
      simp only [hpd] at hF
      cases hF
    | some k =>
      simp only [hpd] at hF
      by_cases hemp : (mr.2.2 == Cell.empty) = true
      · rw [if_pos hemp] at hF
        cases hF
      · rw [if_neg hemp] at hF
        by_cases hsel : (sel.contains mr.1) = true
        · rw [if_pos hsel] at hF
          cases hF
          refine ⟨hpd, hmr, by simpa using hsel, by simpa using hemp⟩
        · rw [if_neg hsel] at hF
          cases hF
  · intro mr hmr k hpd hemp hsel
    rw [time_series_plot]
    refine List.mem_filterMap.mpr ⟨mr, hmr, ?_⟩
    simp only [hpd]
    rw [if_neg (by simp [hemp]), if_pos (by simpa using List.elem_eq_true_of_mem hsel)]
  · rw [time_series_plot]
    apply filterMap_map_proj_sublist
    intro mr rec hF
    cases hpd : parseDate mr.2.1 with
    | none =>
      simp only [hpd] at hF
      cases hF
    | some k =>
      simp only [hpd] at hF
      by_cases hemp : (mr.2.2 == Cell.empty) = true
      · rw [if_pos hemp] at hF
        cases hF
      · rw [if_neg hemp] at hF
        by_cases hsel : (sel.contains mr.1) = true
        · rw [if_pos hsel] at hF
          cases hF
          rfl
        · rw [if_neg hsel] at hF
          cases hF

theorem c7_time_series_witness :
    (∀ rec ∈ time_series_plot ⟨["Parameter", "2022-02-01", "2022-01-01"],
        [[Cell.str "p", Cell.num 1, Cell.num 2]]⟩ [Cell.str "p"],
      parseDate rec.2.1 = some rec.2.2.1 ∧
        (rec.1, rec.2.1, rec.2.2.2) ∈ meltRecords ⟨["Parameter", "2022-02-01", "2022-01-01"],
          [[Cell.str "p", Cell.num 1, Cell.num 2]]⟩ ∧
        rec.1 ∈ [Cell.str "p"] ∧ rec.2.2.2 ≠ Cell.empty) ∧
    (∀ mr ∈ meltRecords ⟨["Parameter", "2022-02-01", "2022-01-01"],
        [[Cell.str "p", Cell.num 1, Cell.num 2]]⟩,
      ∀ k, parseDate mr.2.1 = some k → mr.2.2 ≠ Cell.empty →
      mr.1 ∈ [Cell.str "p"] →
      (mr.1, mr.2.1, k, mr.2.2) ∈ time_series_plot ⟨["Parameter", "2022-02-01", "2022-01-01"],
        [[Cell.str "p", Cell.num 1, Cell.num 2]]⟩ [Cell.str "p"]) ∧
    ((time_series_plot ⟨["Parameter", "2022-02-01", "2022-01-01"],
        [[Cell.str "p", Cell.num 1, Cell.num 2]]⟩ [Cell.str "p"]).map
      (fun rec => (rec.1, rec.2.1, rec.2.2.2))).Sublist
      (meltRecords ⟨["Parameter", "2022-02-01", "2022-01-01"],
        [[Cell.str "p", Cell.num 1, Cell.num 2]]⟩) :=
  c7_time_series _ _

theorem rowOf_spec {ct : CleanTable} {p : Cell} (hp : p ∈ ct.grid.map rowParam) :
    (paramGroup ct.grid p).headD [] ∈ ct.grid ∧
      rowParam ((paramGroup ct.grid p).headD []) = p := by
  rcases List.mem_map.mp hp with ⟨r, hr, hrp⟩
  have hrg : r ∈ paramGroup ct.grid p :=
    List.mem_filter.mpr ⟨hr, by rw [hrp]; exact beq_self_eq_true p⟩
  cases hg : paramGroup ct.grid p with
  | nil =>
    rw [hg] at hrg
    cases hrg
  | cons r0 g0 =>
    have hr0 : r0 ∈ paramGroup ct.grid p := by
      rw [hg]
      exact List.mem_cons_self r0 g0
    rcases mem_paramGroup hr0 with ⟨h1, h2⟩
    exact ⟨h1, by simpa using h2⟩

theorem cellFloat_of_isNum {c : Cell} (h : isNum c = true) :
    cellFloat c = .ok (cellQ c) := by
  cases c with
  | num q => rfl
  | str s => cases h
  | empty => cases h

theorem isNum_ne_empty {c : Cell} (h : isNum c = true) : (c == Cell.empty) = false := by
  cases c with
  | num q => rfl
  | str s => cases h
  | empty => cases h

theorem renderedPoints_map {α : Type} (d : α → String) (c : α → Bool) (v : α → ℚ) :
    ∀ l : List α,
      renderedPoints (l.map (fun x => (d x, if c x then none else some (v x)))) =
        (l.filter (fun x => !(c x))).map (fun x => (d x, v x)) := by
  intro l
  induction l with
  | nil => rfl
  | cons a t ih =>
    rw [List.map_cons, renderedPoints, List.filterMap_cons, List.filter_cons]
    by_cases hc : c a = true
    · simp only [hc, if_true, Option.map_none', Bool.not_true, Bool.false_eq_true, if_false]
      simpa [renderedPoints] using ih
    · have hc2 : c a = false := Bool.eq_false_iff.mpr hc
      simp only [hc2, Bool.false_eq_true, if_false, Option.map_some', Bool.not_false,
        if_true, List.map_cons]
      refine congrArg _ ?_
      simpa [renderedPoints] using ih

/-- C6.  Ratio view: the series holds one entry per date in the original
column order; a date whose denominator is exactly 0 carries the undefined
marker `none` (not zero, not an error) and is exactly what the rendered series
omits, every other date carries numerator divided by denominator, and the
rendered series is the corresponding order-preserving filter. -/
theorem c6_ratio_view (ct : CleanTable) (pn pdn : Cell)
    (hct : isCanonical ct)
    (hpn : pn ∈ ct.grid.map rowParam) (hpd : pdn ∈ ct.grid.map rowParam) :
    ratio_plot ct pn pdn = .ok
      (((ct.labels.drop 1).zip ((rowOf ct pn).zip (rowOf ct pdn))).map
        (fun x => (x.1, if cellQ x.2.2 == 0 then none
          else some (cellQ x.2.1 / cellQ x.2.2)))) ∧
    renderedPoints (((ct.labels.drop 1).zip ((rowOf ct pn).zip (rowOf ct pdn))).map
        (fun x => (x.1, if cellQ x.2.2 == 0 then none
          else some (cellQ x.2.1 / cellQ x.2.2)))) =
      (((ct.labels.drop 1).zip ((rowOf ct pn).zip (rowOf ct pdn))).filter
        (fun x => !(cellQ x.2.2 == 0))).map
        (fun x => (x.1, cellQ x.2.1 / cellQ x.2.2)) ∧
    ((ct.labels.drop 1).zip ((rowOf ct pn).zip (rowOf ct pdn))).map Prod.fst =
      ct.labels.drop 1 := by
  obtain ⟨hhead, hne, hnodup, halign, hstr, hpnd, hnum⟩ := hct
  rcases rowOf_spec hpn with ⟨hmemn, hpn2⟩
  rcases rowOf_spec hpd with ⟨hmemd, hpd2⟩
  have hlenn : (rowOf ct pn).length = ct.labels.length - 1 := by
    rw [rowOf, List.length_drop, halign _ hmemn]
  have hlend : (rowOf ct pdn).length = ct.labels.length - 1 := by
    rw [rowOf, List.length_drop, halign _ hmemd]
  have hnumn : ∀ c ∈ rowOf ct pn, isNum c = true := by
    intro c hc
    exact List.all_eq_true.mp (hnum _ hmemn) c hc
  have hnumd : ∀ c ∈ rowOf ct pdn, isNum c = true := by
    intro c hc
    exact List.all_eq_true.mp (hnum _ hmemd) c hc
  have hfilter : ((ct.labels.drop 1).zip ((rowOf ct pn).zip (rowOf ct pdn))).filter
      (fun r => !(r.2.1 == Cell.empty) && !(r.2.2 == Cell.empty)) =
      (ct.labels.drop 1).zip ((rowOf ct pn).zip (rowOf ct pdn)) := by
    apply List.filter_eq_self.mpr
    intro x hx
    have hzx : x.2 ∈ (rowOf ct pn).zip (rowOf ct pdn) := (List.of_mem_zip hx).2
    have h1 : x.2.1 ∈ rowOf ct pn := (List.of_mem_zip hzx).1
    have h2 : x.2.2 ∈ rowOf ct pdn := (List.of_mem_zip hzx).2
    rw [isNum_ne_empty (hnumn _ h1), isNum_ne_empty (hnumd _ h2)]
    rfl
  refine ⟨?_, renderedPoints_map _ _ _ _, ?_⟩
  · simp only [ratio_plot]
    rw [hfilter]
    apply exceptMapM_ok
    intro x hx
    have hzx : x.2 ∈ (rowOf ct pn).zip (rowOf ct pdn) := (List.of_mem_zip hx).2
    have h1 : x.2.1 ∈ rowOf ct pn := (List.of_mem_zip hzx).1
    have h2 : x.2.2 ∈ rowOf ct pdn := (List.of_mem_zip hzx).2
    rw [cellFloat_of_isNum (hnumn _ h1), cellFloat_of_isNum (hnumd _ h2)]
    rfl
  · apply List.map_fst_zip
    rw [List.length_zip, hlenn, hlend, List.length_drop]
    omega

theorem c6_ratio_view_witness :
    (ratio_plot ⟨["Parameter", "d1", "d2", "d3"],
        [[Cell.str "n", Cell.num 10, Cell.num 20, Cell.num 0],
          [Cell.str "den", Cell.num 5, Cell.num 0, Cell.num 5]]⟩
        (Cell.str "n") (Cell.str "den") = .ok
      ((((["Parameter", "d1", "d2", "d3"] : List String).drop 1).zip
        ((rowOf ⟨["Parameter", "d1", "d2", "d3"],
          [[Cell.str "n", Cell.num 10, Cell.num 20, Cell.num 0],
            [Cell.str "den", Cell.num 5, Cell.num 0, Cell.num 5]]⟩ (Cell.str "n")).zip
         (rowOf ⟨["Parameter", "d1", "d2", "d3"],
          [[Cell.str "n", Cell.num 10, Cell.num 20, Cell.num 0],
            [Cell.str "den", Cell.num 5, Cell.num 0, Cell.num 5]]⟩ (Cell.str "den")))).map
        (fun x => (x.1, if cellQ x.2.2 == 0 then none
          else some (cellQ x.2.1 / cellQ x.2.2)))) ∧
      renderedPoints ((((["Parameter", "d1", "d2", "d3"] : List String).drop 1).zip
        ((rowOf ⟨["Parameter", "d1", "d2", "d3"],
          [[Cell.str "n", Cell.num 10, Cell.num 20, Cell.num 0],
            [Cell.str "den", Cell.num 5, Cell.num 0, Cell.num 5]]⟩ (Cell.str "n")).zip
         (rowOf ⟨["Parameter", "d1", "d2", "d3"],
          [[Cell.str "n", Cell.num 10, Cell.num 20, Cell.num 0],
            [Cell.str "den", Cell.num 5, Cell.num 0, Cell.num 5]]⟩ (Cell.str "den")))).map
        (fun x => (x.1, if cellQ x.2.2 == 0 then none
          else some (cellQ x.2.1 / cellQ x.2.2)))) =
      ((((["Parameter", "d1", "d2", "d3"] : List String).drop 1).zip
        ((rowOf ⟨["Parameter", "d1", "d2", "d3"],
          [[Cell.str "n", Cell.num 10, Cell.num 20, Cell.num 0],
            [Cell.str "den", Cell.num 5, Cell.num 0, Cell.num 5]]⟩ (Cell.str "n")).zip
         (rowOf ⟨["Parameter", "d1", "d2", "d3"],
          [[Cell.str "n", Cell.num 10, Cell.num 20, Cell.num 0],
            [Cell.str "den", Cell.num 5, Cell.num 0, Cell.num 5]]⟩ (Cell.str "den")))).filter
        (fun x => !(cellQ x.2.2 == 0))).map
        (fun x => (x.1, cellQ x.2.1 / cellQ x.2.2)) ∧
      (((["Parameter", "d1", "d2", "d3"] : List String).drop 1).zip
        ((rowOf ⟨["Parameter", "d1", "d2", "d3"],
          [[Cell.str "n", Cell.num 10, Cell.num 20, Cell.num 0],
            [Cell.str "den", Cell.num 5, Cell.num 0, Cell.num 5]]⟩ (Cell.str "n")).zip
         (rowOf ⟨["Parameter", "d1", "d2", "d3"],
          [[Cell.str "n", Cell.num 10, Cell.num 20, Cell.num 0],
            [Cell.str "den", Cell.num 5, Cell.num 0, Cell.num 5]]⟩ (Cell.str "den")))).map
        Prod.fst = (["Parameter", "d1", "d2", "d3"] : List String).drop 1) ∧
    renderedPoints [("d1", some ((10 : ℚ) / 5)), ("d2", none), ("d3", some ((0 : ℚ) / 5))] =
      [("d1", (10 : ℚ) / 5), ("d3", (0 : ℚ) / 5)] ∧
    (10 : ℚ) / 5 = 2 ∧ (0 : ℚ) / 5 = 0 := by
  refine ⟨c6_ratio_view _ _ _ ⟨rfl, by decide, by decide, by decide, by decide,
    by decide, by decide⟩ (by decide) (by decide), rfl, by norm_num, by norm_num⟩

end DataVis
